import Mathlib

/-!
# AutoLav batch-collection frontend: formal model

A shallow embedding of the orchestration, aggregation and export logic of the
AutoLav frontend (`App.jsx` / `utils/export.js`), together with theorems about
its behaviour.  JavaScript strings are modelled as `String` (lists of
characters), JavaScript numbers as rationals carrying exactly representable
IEEE-754 binary64 values — with every arithmetic operation the source
performs followed by binary64 rounding (`fl64`) — absent (`undefined`)
fields as `Option`, and the React state updates performed by the handlers as
an explicit event trace folded over a state record.
-/

namespace AutoLav

/-! ## Data model (§3 of the design: DailyRecord / UnitResult) -/

/-- One measurement for one unit on one day (`{date, kg}` in backend results). -/
structure DailyRecord where
  date : String
  kg : ℚ
  deriving DecidableEq, Repr

/-- One backend result entry (`{unit_id, total, rows, error}`); `rows` and
`error` may be absent (`undefined`), modelled with `Option`. -/
structure UnitResult where
  unit_id : String
  total : ℚ
  rows : Option (List DailyRecord)
  error : Option String
  deriving DecidableEq, Repr

/-! ## JavaScript string primitives used by the source

`units.split(/[,;\n]/)`, `u.trim()` and friends, modelled on `List Char`
so that every definition reduces in the kernel. -/

/-- Characters treated as whitespace by JavaScript `String.prototype.trim`
(the ones that can occur in this application's inputs). -/
def jsWhitespace (c : Char) : Bool :=
  c = ' ' || c = '\t' || c = '\n' || c = '\r' || c = '\x0b' || c = '\x0c' ||
  c = '\xa0' || c = '\uFEFF'

/-- Drop leading and trailing whitespace from a character list. -/
def trimChars (l : List Char) : List Char :=
  ((l.dropWhile jsWhitespace).reverse.dropWhile jsWhitespace).reverse

/-- JavaScript `s.trim()`. -/
def jsTrim (s : String) : String :=
  String.mk (trimChars s.data)

/-- JavaScript `s.split(re)` for a single-character-class regexp: split a
character list at every separator character, keeping empty pieces (so
`",".split` yields two empty pieces, and `"".split` yields one). -/
def splitChars (p : Char → Bool) : List Char → List (List Char)
  | [] => [[]]
  | c :: rest =>
    if p c then [] :: splitChars p rest
    else
      match splitChars p rest with
      | [] => [[c]]
      | piece :: pieces => (c :: piece) :: pieces

/-- The separator class of `units.split(/[,;\n]/)`. -/
def isSeparator (c : Char) : Bool :=
  c = ',' || c = ';' || c = '\n'

/-! ## Identifier parser (§4.1)

`units.split(/[,;\n]/).map(u => u.trim()).filter(Boolean)` from
`handleScrape`. -/

/-- The identifier parser of `handleScrape` (App.jsx line 114). -/
def parseUnits (s : String) : List String :=
  (((splitChars isSeparator s.data).map fun piece =>
      String.mk (trimChars piece)).filter fun u => u ≠ "")

/-! ## Result aggregator (§4.4)

`totalKg` / `successCount` / `errorCount` from App.jsx lines 161–163. -/

/-- JavaScript truthiness of the `error` field: `undefined` and `""` are
falsy, every other string is truthy. -/
def errTruthy (r : UnitResult) : Bool :=
  match r.error with
  | some s => s ≠ ""
  | none => false

/-- Round a rational to the nearest IEEE-754 binary64 value: round to
nearest with ties to even, 53-bit significand, subnormal exponents clamped
at `-1074`.  Overflow to infinity has no rational representative and lies
far outside this code path's magnitudes, so it is not modelled. -/
def fl64 (q : ℚ) : ℚ :=
  if q = 0 then 0
  else
    let e : ℤ := max (Int.log 2 |q| - 52) (-1074)
    let scaled : ℚ := |q| / 2 ^ e
    let n : ℤ := ⌊scaled⌋
    let m : ℤ :=
      if scaled - n < 1 / 2 then n
      else if (1 : ℚ) / 2 < scaled - n then n + 1
      else if 2 ∣ n then n else n + 1
    (if q < 0 then -1 else 1) * m * (2 : ℚ) ^ e

/-- `results.reduce((sum, r) => sum + (r.total || 0), 0)` (App.jsx 161):
the accumulator holds a binary64 double, so each addition is the exact sum
rounded by `fl64`; with `total` always a number, `r.total || 0` has the
value `r.total`. -/
def totalKg (results : List UnitResult) : ℚ :=
  results.foldl (fun sum r => fl64 (sum + r.total)) 0

/-- The derived run summary: `results.length`, the two filters of App.jsx
lines 162–163, and `totalKg`. -/
structure RunSummary where
  unitCount : Nat
  successCount : Nat
  errorCount : Nat
  grandTotal : ℚ
  deriving DecidableEq, Repr

/-- Recompute the summary from the current result sequence (App.jsx 161–163,
together with the `results.length` statistic of the stats cards). -/
def computeSummary (results : List UnitResult) : RunSummary :=
  { unitCount := results.length
    successCount := (results.filter fun r => !errTruthy r).length
    errorCount := (results.filter fun r => errTruthy r).length
    grandTotal := totalKg results }

/-! ## Number formatting

`x.toFixed(2)`: round to the nearest multiple of 1/100 (ties away from
zero) and print with exactly two decimal digits. -/

/-- `x.toFixed(2)` for the decimal values of this code path: the number of
cents is `⌊|q| · 100 + 1/2⌋ = (200·|num| + den) / (2·den)`, printed with the
sign and exactly two digits after the point. -/
def toFixed2 (q : ℚ) : String :=
  let cents : Nat := (200 * q.num.natAbs + q.den) / (2 * q.den)
  let fracStr :=
    if cents % 100 < 10 then "0" ++ toString (cents % 100)
    else toString (cents % 100)
  (if q.num < 0 then "-" else "") ++ toString (cents / 100) ++ "." ++ fracStr

/-! ## Collection orchestrator (§4.3) — `handleScrape`

The React handler is modelled as the trace of state updates and external
effects it performs, given the outcome of the single batched backend
request; the trace is then folded over a UI-state record. -/

/-- Input snapshot of `handleScrape`: the four pieces of state it reads. -/
structure ScrapeInput where
  units : String
  startDate : String
  endDate : String
  hasCredentials : Bool
  deriving DecidableEq, Repr

/-- Outcome of the `fetch` to `/api/scrape`: parsed success payload,
a non-ok HTTP response (whose body text becomes the thrown error message),
or a network-level failure. -/
inductive BackendResponse where
  | ok (results : List UnitResult)
  | httpError (body : String)
  | networkError (msg : String)
  deriving DecidableEq, Repr

/-- One state update or external effect performed by `handleScrape`. -/
inductive Ev where
  | evLoading (b : Bool)
  | evClearResults
  | evProgress (current total : Nat)
  | evFetch (units : List String) (startDate endDate : String)
  | evAppendResult (r : UnitResult)
  | evAlert (msg : String)
  | evOpenLogin
  deriving DecidableEq, Repr

/-- The delivery loop of `handleScrape` (App.jsx 138–142): for each index
`i`, `setProgress({current: i+1, total: N})` then append `results[i]`. -/
def streamEvents (results : List UnitResult) : List Ev :=
  results.enum.flatMap fun p =>
    [Ev.evProgress (p.1 + 1) results.length, Ev.evAppendResult p.2]

/-- The full event trace of one `handleScrape` invocation
(App.jsx 94–151). -/
def handleScrape (inp : ScrapeInput) (resp : BackendResponse) : List Ev :=
  if jsTrim inp.units = "" then
    [Ev.evAlert "Informe pelo menos uma unidade!"]
  else if inp.startDate = "" ∨ inp.endDate = "" then
    [Ev.evAlert "Informe o período (data início e fim)!"]
  else if inp.hasCredentials = false then
    [Ev.evAlert "Configure as credenciais de login primeiro!", Ev.evOpenLogin]
  else
    Ev.evLoading true :: Ev.evClearResults ::
    Ev.evProgress 0 (parseUnits inp.units).length ::
    Ev.evFetch (parseUnits inp.units) inp.startDate inp.endDate ::
    ((match resp with
      | .ok results => streamEvents results
      | .httpError body => [Ev.evAlert ("Erro ao executar scraping: " ++ body)]
      | .networkError msg => [Ev.evAlert ("Erro ao executar scraping: " ++ msg)]) ++
     [Ev.evLoading false, Ev.evProgress 0 0])

/-- The UI state the trace acts on. -/
structure UIState where
  loading : Bool
  results : List UnitResult
  progress : Nat × Nat
  deriving DecidableEq, Repr

/-- Apply one event to the UI state (alerts, the login dialog and the
network call do not change these three fields). -/
def applyEv (s : UIState) : Ev → UIState
  | .evLoading b => { s with loading := b }
  | .evClearResults => { s with results := [] }
  | .evProgress c t => { s with progress := (c, t) }
  | .evAppendResult r => { s with results := s.results ++ [r] }
  | .evFetch _ _ _ => s
  | .evAlert _ => s
  | .evOpenLogin => s

/-- Fold a trace over the UI state. -/
def runEvents (s : UIState) (evs : List Ev) : UIState :=
  evs.foldl applyEv s

/-- The progress updates of a trace, in order. -/
def progressEvents (evs : List Ev) : List (Nat × Nat) :=
  evs.filterMap fun e =>
    match e with
    | .evProgress c t => some (c, t)
    | _ => none

/-- The results delivered by a trace, in order. -/
def appendedResults (evs : List Ev) : List UnitResult :=
  evs.filterMap fun e =>
    match e with
    | .evAppendResult r => some r
    | _ => none

/-- The error message a failed backend request surfaces (`error.message`
of the thrown error): the response body for a non-ok response, the network
failure message otherwise. -/
def errMsg : BackendResponse → Option String
  | .ok _ => none
  | .httpError body => some body
  | .networkError msg => some msg

/-! ## Tabular exporter (§4.5) — `exportToCSV`

The pure part of `utils/export.js`: header, data rows and the delimited
text.  `new Date(row.date).toLocaleDateString('pt-BR')` is a platform
locale function, modelled as an arbitrary formatting function `fmt`
passed as a parameter. -/

/-- The fixed header of the export (export.js line 5). -/
def csvHeaders : List String := ["Unidade", "Data", "Kg", "Total Unidade", "Erro"]

/-- The data rows one `UnitResult` contributes (export.js 11–29): one row
per daily record when `rows` is present and non-empty, otherwise a single
row with empty date and kg cells. -/
def unitRows (fmt : String → String) (result : UnitResult) : List (List String) :=
  let unitId := result.unit_id
  let total := toFixed2 result.total
  let err := result.error.getD ""
  match result.rows with
  | some rows =>
    if rows.length > 0 then
      rows.map fun row => [unitId, fmt row.date, toFixed2 row.kg, total, err]
    else
      [[unitId, "", "", total, err]]
  | none => [[unitId, "", "", total, err]]

/-- All data rows of the export, in result order (the flat `rows` array
built by the `forEach`). -/
def exportRows (fmt : String → String) (results : List UnitResult) : List (List String) :=
  results.flatMap (unitRows fmt)

/-- `list.join(sep)` at the character level. -/
def joinWith (sep : Char) : List (List Char) → List Char
  | [] => []
  | [x] => x
  | x :: xs => x ++ sep :: joinWith sep xs

/-- A data cell as emitted: wrapped in double quotes with no escaping
(the `` `"${cell}"` `` template of export.js line 35). -/
def cellChars (cell : List Char) : List Char :=
  '"' :: cell ++ ['"']

/-- One emitted data row: quoted cells joined with commas. -/
def rowChars (row : List String) : List Char :=
  joinWith ',' (row.map fun cell => cellChars cell.data)

/-- The emitted header row: `headers.join(',')`, unquoted. -/
def headerChars : List Char :=
  joinWith ',' (csvHeaders.map String.data)

/-- The characters of the `csvContent` string built by export.js 32–35:
the header row and the data rows joined with newlines. -/
def csvChars (fmt : String → String) (results : List UnitResult) : List Char :=
  joinWith '\n' (headerChars :: (exportRows fmt results).map rowChars)

/-- The `csvContent` string of export.js (before the byte-order mark is
prepended for the download blob). -/
def csvContent (fmt : String → String) (results : List UnitResult) : String :=
  String.mk (csvChars fmt results)

/-! ## A standard delimited-text reader

An RFC-4180-style CSV reader used to state the round-trip property: fields
are separated by commas, records by newlines, a field starting with a
double quote runs to the matching quote (`""` denoting a literal quote,
separators inside quotes being ordinary text), and a stray quote inside a
field re-enters quoted mode (the usual lenient behaviour).  The reader is
structurally recursive so all of its applications compute. -/

/-- Reader mode: outside quotes, inside quotes, or just after a closing
quote (where a second quote denotes an escaped literal quote). -/
inductive CsvMode where
  | plain
  | quoted
  | closed
  deriving DecidableEq, Repr

/-- The reader's state machine: remaining input, mode, the field read so
far, the fields of the current record. -/
def csvAux : List Char → CsvMode → List Char → List String → List (List String)
  | [], _, field, record => [record ++ [String.mk field]]
  | c :: rest, .quoted, field, record =>
    if c = '"' then csvAux rest .closed field record
    else csvAux rest .quoted (field ++ [c]) record
  | c :: rest, .closed, field, record =>
    if c = '"' then csvAux rest .quoted (field ++ ['"']) record
    else if c = ',' then csvAux rest .plain [] (record ++ [String.mk field])
    else if c = '\n' then (record ++ [String.mk field]) :: csvAux rest .plain [] []
    else csvAux rest .plain (field ++ [c]) record
  | c :: rest, .plain, field, record =>
    if c = '"' then csvAux rest .quoted field record
    else if c = ',' then csvAux rest .plain [] (record ++ [String.mk field])
    else if c = '\n' then (record ++ [String.mk field]) :: csvAux rest .plain [] []
    else csvAux rest .plain (field ++ [c]) record

/-- Parse a delimited-text document into its records of fields. -/
def parseCSV (s : String) : List (List String) :=
  if s.data = [] then [] else csvAux s.data .plain [] []

/-! ## Specification-side restatements

Definitions written from the specification's wording, to be compared with
the definitions taken from the source. -/

/-- The identifier sequence as the specification words it: split the string
on commas, semicolons and newlines, trim whitespace from each piece, and
drop the empty pieces, preserving order (`List.splitOnP` is the library's
splitting function). -/
def specSplitTrimDrop (s : String) : List String :=
  (((s.data.splitOnP isSeparator).map fun piece =>
      String.mk (trimChars piece)).filter fun u => u ≠ "")

/-- The rows one `UnitResult` contributes, as the specification words it:
one row per daily record when `rows` is non-empty, otherwise exactly one
row with empty date and kg cells but the total and error populated. -/
def specUnitRows (fmt : String → String) (u : UnitResult) : List (List String) :=
  if u.rows.getD [] ≠ [] then
    (u.rows.getD []).map fun r =>
      [u.unit_id, fmt r.date, toFixed2 r.kg, toFixed2 u.total, u.error.getD ""]
  else
    [[u.unit_id, "", "", toFixed2 u.total, u.error.getD ""]]

/-! ## Reader-side vocabulary for the round-trip statement -/

/-- The fields of a record whose first field was read as `first` and whose
remaining cells were read as `cs`. -/
def rowStrings (first : List Char) (cs : List (List Char)) : List String :=
  String.mk first :: cs.map String.mk

/-- `e` encodes the cell content `content` for the reader: wherever `e` is
followed by end of input, a comma or a newline, the reader finishes the
current field with exactly `content` appended and proceeds as usual. -/
def CellEnc (e content : List Char) : Prop :=
  ∀ (field : List Char) (rec : List String),
    csvAux (e ++ []) .plain field rec = [rec ++ [String.mk (field ++ content)]] ∧
    (∀ r₂, csvAux (e ++ ',' :: r₂) .plain field rec =
      csvAux r₂ .plain [] (rec ++ [String.mk (field ++ content)])) ∧
    (∀ r₂, csvAux (e ++ '\n' :: r₂) .plain field rec =
      (rec ++ [String.mk (field ++ content)]) :: csvAux r₂ .plain [] [])

/-- `enc` encodes the record `fields` for the reader, standing alone or
followed by a newline and further input. -/
def RowEnc (enc : List Char) (fields : List String) : Prop :=
  (∀ rec, csvAux enc .plain [] rec = [rec ++ fields]) ∧
  (∀ rec r, csvAux (enc ++ '\n' :: r) .plain [] rec =
    (rec ++ fields) :: csvAux r .plain [] [])

end AutoLav

namespace AutoLav

/-! ## Helper lemmas -/

theorem splitChars_eq_splitOnP (p : Char → Bool) (l : List Char) :
    splitChars p l = l.splitOnP p := by
  induction l with
  | nil => rfl
  | cons c rest ih =>
    by_cases hc : p c
    · simp [splitChars, hc, ih]
    · rcases hsp : rest.splitOnP p with _ | ⟨piece, pieces⟩
      · exact absurd hsp (List.splitOnP_ne_nil p rest)
      · simp [splitChars, hc, ih, hsp, List.modifyHead]

theorem unitRows_eq_spec (fmt : String → String) (u : UnitResult) :
    unitRows fmt u = specUnitRows fmt u := by
  rcases u with ⟨uid, total, rows, err⟩
  rcases rows with _ | ⟨_ | ⟨r, rs⟩⟩ <;>
    simp [unitRows, specUnitRows]

theorem joinWith_cons_flatMap (sep : Char) (x : List Char) (xs : List (List Char)) :
    joinWith sep (x :: xs) = x ++ xs.flatMap fun r => sep :: r := by
  induction xs generalizing x with
  | nil => simp [joinWith]
  | cons y ys ih => simp [joinWith, ih y]

theorem appendedResults_append (l₁ l₂ : List Ev) :
    appendedResults (l₁ ++ l₂) = appendedResults l₁ ++ appendedResults l₂ :=
  List.filterMap_append _ _ _

theorem progressEvents_append (l₁ l₂ : List Ev) :
    progressEvents (l₁ ++ l₂) = progressEvents l₁ ++ progressEvents l₂ :=
  List.filterMap_append _ _ _

theorem appendedResults_stream_aux (rs : List UnitResult) (N : Nat) : ∀ n : Nat,
    appendedResults ((rs.enumFrom n).flatMap fun p =>
      [Ev.evProgress (p.1 + 1) N, Ev.evAppendResult p.2]) = rs := by
  induction rs with
  | nil => intro n; rfl
  | cons r rest ih =>
    intro n
    simp only [List.enumFrom, List.flatMap_cons, appendedResults_append]
    rw [ih (n + 1)]
    rfl

theorem appendedResults_stream (rs : List UnitResult) :
    appendedResults (streamEvents rs) = rs := by
  simpa [streamEvents, List.enum, appendedResults] using
    appendedResults_stream_aux rs rs.length 0

theorem progressEvents_stream_aux (rs : List UnitResult) (N : Nat) : ∀ n : Nat,
    progressEvents ((rs.enumFrom n).flatMap fun p =>
      [Ev.evProgress (p.1 + 1) N, Ev.evAppendResult p.2]) =
      (List.range' (n + 1) rs.length).map fun c => (c, N) := by
  induction rs with
  | nil => intro n; rfl
  | cons r rest ih =>
    intro n
    simp only [List.enumFrom, List.flatMap_cons, progressEvents_append, ih (n + 1),
      List.length_cons, List.range'_succ, List.map_cons]
    rfl

theorem progressEvents_stream (rs : List UnitResult) :
    progressEvents (streamEvents rs) =
      (List.range' 1 rs.length).map fun c => (c, rs.length) := by
  simpa [streamEvents, List.enum] using
    progressEvents_stream_aux rs rs.length 0

theorem length_filter_add_length_filter_neg (p : UnitResult → Bool)
    (l : List UnitResult) :
    (l.filter p).length + (l.filter fun a => !p a).length = l.length := by
  induction l with
  | nil => rfl
  | cons a l ih =>
    by_cases h : p a <;> simp [List.filter, h] <;> omega

theorem runEvents_append (s : UIState) (l₁ l₂ : List Ev) :
    runEvents s (l₁ ++ l₂) = runEvents (runEvents s l₁) l₂ :=
  List.foldl_append ..

theorem map_mk_pair_snd (N : Nat) : ∀ l : List Nat,
    ((l.map fun c => ((c, N) : Nat × Nat)).map Prod.snd) = List.replicate l.length N := by
  intro l
  induction l with
  | nil => rfl
  | cons x xs ih => simp [ih, List.replicate_succ]

theorem int_log_eval (q : ℚ) (k : ℕ) (h1 : 1 ≤ q)
    (hlow : (2 : ℚ) ^ k ≤ q) (hhigh : q < 2 ^ (k + 1)) :
    Int.log 2 q = (k : ℤ) := by
  rw [Int.log_of_one_le_right _ h1]
  have h0 : (0 : ℚ) ≤ q := le_trans zero_le_one h1
  have hfl : Nat.log 2 ⌊q⌋₊ = k :=
    Nat.log_eq_of_pow_le_of_lt_pow
      (Nat.le_floor (by exact_mod_cast hlow))
      ((Nat.floor_lt h0).mpr (by exact_mod_cast hhigh))
  exact_mod_cast hfl

theorem fl64_eq_self (q : ℚ) (k : ℕ) (n : ℤ) (h1 : 1 ≤ q)
    (hlow : (2 : ℚ) ^ k ≤ q) (hhigh : q < 2 ^ (k + 1))
    (hn : (n : ℚ) = q * 2 ^ (52 - (k : ℤ))) :
    fl64 q = q := by
  have hq0 : (0 : ℚ) < q := lt_of_lt_of_le zero_lt_one h1
  have habs : |q| = q := abs_of_pos hq0
  have hlog : Int.log 2 q = (k : ℤ) := int_log_eval q k h1 hlow hhigh
  have hscaled : q / (2 : ℚ) ^ ((k : ℤ) - 52) = (n : ℚ) := by
    rw [hn, div_eq_mul_inv, ← zpow_neg, neg_sub]
  unfold fl64
  rw [if_neg (ne_of_gt hq0)]
  simp only [habs, hlog]
  rw [show max ((k : ℤ) - 52) (-1074) = (k : ℤ) - 52 from max_eq_left (by omega),
    hscaled, Int.floor_intCast, sub_self,
    if_pos (by norm_num : (0 : ℚ) < 1 / 2),
    if_neg (not_lt.mpr (le_of_lt hq0)),
    one_mul, hn, mul_assoc, ← zpow_add₀ (two_ne_zero (α := ℚ))]
  norm_num

theorem fl64_tie : fl64 (10000000000000001 : ℚ) = 10000000000000000 := by
  have habs : |(10000000000000001 : ℚ)| = 10000000000000001 := abs_of_pos (by norm_num)
  have hlog : Int.log 2 (10000000000000001 : ℚ) = 53 :=
    int_log_eval _ 53 (by norm_num) (by norm_num) (by norm_num)
  have hscaled : (10000000000000001 : ℚ) / (2 : ℚ) ^ ((53 : ℤ) - 52) =
      ((5000000000000000 : ℤ) : ℚ) + 1 / 2 := by norm_num
  have hfl : ⌊((5000000000000000 : ℤ) : ℚ) + 1 / 2⌋ = 5000000000000000 :=
    Int.floor_eq_iff.mpr (by norm_num)
  unfold fl64
  rw [if_neg (by norm_num : ¬(10000000000000001 : ℚ) = 0)]
  simp only [habs, hlog]
  rw [show max ((53 : ℤ) - 52) (-1074) = (53 : ℤ) - 52 from max_eq_left (by omega),
    hscaled, hfl,
    if_neg (by norm_num :
      ¬((5000000000000000 : ℤ) : ℚ) + 1 / 2 - ((5000000000000000 : ℤ) : ℚ) < 1 / 2),
    if_neg (by norm_num :
      ¬(1 : ℚ) / 2 < ((5000000000000000 : ℤ) : ℚ) + 1 / 2 - ((5000000000000000 : ℤ) : ℚ)),
    if_pos (by decide : (2 : ℤ) ∣ 5000000000000000),
    if_neg (by norm_num : ¬(10000000000000001 : ℚ) < 0)]
  norm_num

theorem fl64_at_half25 : fl64 (12.5 : ℚ) = 12.5 :=
  fl64_eq_self _ 3 7036874417766400 (by norm_num) (by norm_num) (by norm_num) (by norm_num)

theorem fl64_at_one : fl64 (1 : ℚ) = 1 :=
  fl64_eq_self 1 0 4503599627370496 (by norm_num) (by norm_num) (by norm_num) (by norm_num)

theorem fl64_at_two : fl64 (2 : ℚ) = 2 :=
  fl64_eq_self 2 1 4503599627370496 (by norm_num) (by norm_num) (by norm_num) (by norm_num)

theorem fl64_at_big : fl64 (10000000000000000 : ℚ) = 10000000000000000 :=
  fl64_eq_self _ 53 5000000000000000 (by norm_num) (by norm_num) (by norm_num) (by norm_num)

theorem fl64_at_big_add_two : fl64 (10000000000000002 : ℚ) = 10000000000000002 :=
  fl64_eq_self _ 53 5000000000000001 (by norm_num) (by norm_num) (by norm_num) (by norm_num)

/-! ## Claims -/

/-- C3: for every free-form input string, the identifier parser yields
exactly the sequence obtained by splitting the string on commas, semicolons
and newlines, trimming whitespace from each piece, and dropping empty
pieces, preserving the original left-to-right order; in particular
`"101, 102;\n103 ,"` yields `["101","102","103"]`. -/
theorem parser_matches_spec :
    (∀ s : String, parseUnits s = specSplitTrimDrop s) ∧
    parseUnits "101, 102;\n103 ," = ["101", "102", "103"] :=
  ⟨fun s => by simp [parseUnits, specSplitTrimDrop, splitChars_eq_splitOnP],
   by decide⟩

/-- C4: for every successful backend response with `N` results, the
streaming loop delivers exactly `N` progress updates, with `current`
running strictly increasingly through `1, …, N` and `total` constant at
`N`, and delivers exactly the backend's results, one at a time, in backend
order. -/
theorem streaming_progress_exact (results : List UnitResult) :
    progressEvents (streamEvents results) =
      ((List.range' 1 results.length).map fun c => (c, results.length)) ∧
    (progressEvents (streamEvents results)).length = results.length ∧
    List.Chain' (fun p q : Nat × Nat => p.1 < q.1)
      (progressEvents (streamEvents results)) ∧
    (progressEvents (streamEvents results)).map Prod.snd =
      List.replicate results.length results.length ∧
    appendedResults (streamEvents results) = results := by
  refine ⟨progressEvents_stream results, ?_, ?_, ?_, appendedResults_stream results⟩
  · simp [progressEvents_stream]
  · rw [progressEvents_stream]
    exact ((List.pairwise_lt_range' ..).map
      (fun c => (c, results.length)) fun a b hab => hab).chain'
  · rw [progressEvents_stream, map_mk_pair_snd]
    simp

/-- C6: an entry carrying a non-empty error field does not abort the run
and does not affect sibling entries: the delivery loop delivers every
entry of any backend result array, and for the example array
`[{unit_id:"A", total:12.5, rows:[…]}, {unit_id:"B", error:"timeout"}]`
the computed summary is `successCount = 1`, `errorCount = 1`,
`grandTotal = 12.5`. -/
theorem unit_error_isolated :
    (∀ results : List UnitResult, appendedResults (streamEvents results) = results) ∧
    computeSummary
        [⟨"A", 12.5, some [⟨"2024-01-01", 5.5⟩, ⟨"2024-01-02", 7⟩], none⟩,
         ⟨"B", 0, none, some "timeout"⟩] =
      ⟨2, 1, 1, 12.5⟩ :=
  ⟨appendedResults_stream, by
    simp only [computeSummary, totalKg, List.foldl_cons, List.foldl_nil, zero_add,
      fl64_at_half25, add_zero]
    norm_num [errTruthy]
    decide⟩

/-- C7 as stated is false of the program: the grand total is accumulated
with binary64 double addition, which is not associative, so it is not
invariant under permutation.  With totals `[10^16, 1, 1]` the fold gives
`10^16` (each `10^16 + 1` rounds back down, ties to even), while the
permutation `[1, 1, 10^16]` gives `10^16 + 2`. -/
theorem grandTotal_not_perm_invariant_counterexample :
    (([⟨"A", 10000000000000000, none, none⟩, ⟨"B", 1, none, none⟩,
       ⟨"C", 1, none, none⟩] : List UnitResult).Perm
      [⟨"B", 1, none, none⟩, ⟨"C", 1, none, none⟩,
       ⟨"A", 10000000000000000, none, none⟩]) ∧
    (computeSummary [⟨"A", 10000000000000000, none, none⟩, ⟨"B", 1, none, none⟩,
       ⟨"C", 1, none, none⟩]).grandTotal ≠
      (computeSummary [⟨"B", 1, none, none⟩, ⟨"C", 1, none, none⟩,
       ⟨"A", 10000000000000000, none, none⟩]).grandTotal := by
  constructor
  · decide
  · have e1 : (10000000000000000 : ℚ) + 1 = 10000000000000001 := by norm_num
    have e2 : (1 : ℚ) + 1 = 2 := by norm_num
    have e3 : (2 : ℚ) + 10000000000000000 = 10000000000000002 := by norm_num
    simp only [computeSummary, totalKg, List.foldl_cons, List.foldl_nil, zero_add,
      fl64_at_big, e1, fl64_tie, fl64_at_one, e2, fl64_at_two, e3, fl64_at_big_add_two]
    norm_num

/-- C7 (amended): the result aggregator is a pure function of the result
sequence: computing the summary twice yields identical values; every
permutation of the sequence leaves `unitCount`, `successCount` and
`errorCount` unchanged; `errorCount` always equals `unitCount` minus
`successCount`; and `grandTotal` is the left-to-right double-precision
accumulation of every entry's `total` (entries carrying an error
included), which — double addition being non-associative — is not
invariant under permutation in general. -/
theorem aggregator_pure_amended (rs₁ rs₂ : List UnitResult) (h : rs₁.Perm rs₂) :
    computeSummary rs₁ = computeSummary rs₁ ∧
    (computeSummary rs₁).unitCount = (computeSummary rs₂).unitCount ∧
    (computeSummary rs₁).successCount = (computeSummary rs₂).successCount ∧
    (computeSummary rs₁).errorCount = (computeSummary rs₂).errorCount ∧
    (computeSummary rs₁).errorCount =
      (computeSummary rs₁).unitCount - (computeSummary rs₁).successCount ∧
    (computeSummary rs₁).grandTotal =
      rs₁.foldl (fun sum r => fl64 (sum + r.total)) 0 := by
  refine ⟨rfl, h.length_eq, (h.filter _).length_eq, (h.filter _).length_eq, ?_, rfl⟩
  simp only [computeSummary]
  have := length_filter_add_length_filter_neg (fun r => errTruthy r) rs₁
  omega

/-- Witness for C7 (amended) at a concrete pair of permuted sequences. -/
theorem aggregator_pure_amended_witness :
    ([⟨"A", 12, none, none⟩, ⟨"B", 0, none, some "timeout"⟩] : List UnitResult).Perm
        [⟨"B", 0, none, some "timeout"⟩, ⟨"A", 12, none, none⟩] ∧
    (computeSummary [⟨"A", 12, none, none⟩, ⟨"B", 0, none, some "timeout"⟩]).errorCount =
      (computeSummary [⟨"B", 0, none, some "timeout"⟩, ⟨"A", 12, none, none⟩]).errorCount :=
  ⟨by decide, (aggregator_pure_amended _ _ (by decide)).2.2.2.1⟩

/-- C8: the exporter emits the header row followed, for each `UnitResult`
in sequence order, by its data rows: one row per `DailyRecord` carrying
unit id, formatted date, kg and the unit's total to two decimals and the
error text or empty, when `rows` is non-empty; and exactly one row with
empty date and kg cells but total and error populated, when `rows` is
empty. -/
theorem exporter_row_structure (fmt : String → String) (results : List UnitResult) :
    csvChars fmt results =
      headerChars ++ ((exportRows fmt results).map rowChars).flatMap (fun r => '\n' :: r) ∧
    exportRows fmt results = results.flatMap (specUnitRows fmt) ∧
    ∀ u : UnitResult, (unitRows fmt u).length =
      if u.rows.getD [] = [] then 1 else (u.rows.getD []).length := by
  refine ⟨joinWith_cons_flatMap '\n' headerChars _, ?_, ?_⟩
  · exact congrArg _ (funext (unitRows_eq_spec fmt))
  · intro u
    rw [unitRows_eq_spec, specUnitRows]
    by_cases hr : u.rows.getD [] = [] <;> simp [hr]

/-- C10: the exporter is total on entries whose `rows` field is absent:
such an entry is handled exactly like one with an empty `rows` sequence
and produces exactly one data row with empty date and kg cells. -/
theorem exporter_total_on_missing_rows (fmt : String → String) (uid : String)
    (total : ℚ) (err : Option String) :
    unitRows fmt ⟨uid, total, none, err⟩ =
      [[uid, "", "", toFixed2 total, err.getD ""]] ∧
    unitRows fmt ⟨uid, total, none, err⟩ = unitRows fmt ⟨uid, total, some [], err⟩ := by
  constructor <;> simp [unitRows]

/-- C2 as stated is false: the input `","` parses to an empty identifier
sequence, yet with both dates present and credentials available the
handler issues the network call (it only guards against a units string
that trims to empty). -/
theorem validation_parse_empty_counterexample :
    parseUnits "," = [] ∧
    Ev.evFetch [] "2024-01-01" "2024-01-31" ∈
      handleScrape ⟨",", "2024-01-01", "2024-01-31", true⟩ (.ok []) := by
  decide

/-- C2 (amended): starting a run fails fast with a validation alert and
issues no network call whenever the raw units string trims to the empty
string, or either date is missing, or credentials are absent; in all of
these cases the run never starts (the trace leaves the UI state
untouched). -/
theorem validation_fails_fast (inp : ScrapeInput) (resp : BackendResponse)
    (hv : jsTrim inp.units = "" ∨ inp.startDate = "" ∨ inp.endDate = "" ∨
      inp.hasCredentials = false) :
    (∀ us sd ed, Ev.evFetch us sd ed ∉ handleScrape inp resp) ∧
    (∀ s₀ : UIState, runEvents s₀ (handleScrape inp resp) = s₀) ∧
    ∃ m, Ev.evAlert m ∈ handleScrape inp resp := by
  unfold handleScrape
  split_ifs with h1 h2 h3
  · exact ⟨by simp, fun s₀ => rfl, ⟨"Informe pelo menos uma unidade!", by simp⟩⟩
  · exact ⟨by simp, fun s₀ => rfl, ⟨"Informe o período (data início e fim)!", by simp⟩⟩
  · exact ⟨by simp, fun s₀ => rfl, ⟨"Configure as credenciais de login primeiro!", by simp⟩⟩
  · rcases hv with h | h | h | h
    · exact absurd h h1
    · exact absurd (Or.inl h) h2
    · exact absurd (Or.inr h) h2
    · exact absurd h h3

/-- Witness for C2 (amended) at a whitespace-only units string. -/
theorem validation_fails_fast_witness :
    jsTrim " " = "" ∧
    Ev.evFetch ["101"] "2024-01-01" "2024-01-31" ∉
      handleScrape ⟨" ", "2024-01-01", "2024-01-31", true⟩ (.ok []) :=
  ⟨by decide, (validation_fails_fast _ _ (Or.inl (by decide))).1
    ["101"] "2024-01-01" "2024-01-31"⟩

/-- C5: when the backend request fails at the network level (fetch error
or non-ok response), no partial results are surfaced — the result sequence
ends empty, the error message is surfaced in the alert, and the handler
returns to the idle state (loading off, progress reset), permitting
another run. -/
theorem transport_error_no_partial_results (inp : ScrapeInput)
    (resp : BackendResponse) (msg : String)
    (h1 : jsTrim inp.units ≠ "") (h2 : inp.startDate ≠ "") (h3 : inp.endDate ≠ "")
    (h4 : inp.hasCredentials = true) (hm : errMsg resp = some msg) :
    Ev.evAlert ("Erro ao executar scraping: " ++ msg) ∈ handleScrape inp resp ∧
    ∀ s₀ : UIState,
      (runEvents s₀ (handleScrape inp resp)).results = [] ∧
      (runEvents s₀ (handleScrape inp resp)).loading = false ∧
      (runEvents s₀ (handleScrape inp resp)).progress = (0, 0) := by
  rcases resp with results | body | m
  · exact absurd hm (by simp [errMsg])
  · obtain rfl : body = msg := by simpa [errMsg] using hm
    unfold handleScrape
    rw [if_neg h1, if_neg (by tauto), if_neg (by simp [h4])]
    exact ⟨by simp, fun s₀ => by simp [runEvents, applyEv]⟩
  · obtain rfl : m = msg := by simpa [errMsg] using hm
    unfold handleScrape
    rw [if_neg h1, if_neg (by tauto), if_neg (by simp [h4])]
    exact ⟨by simp, fun s₀ => by simp [runEvents, applyEv]⟩

/-- Witness for C5 at a concrete failing response and non-idle prior
state. -/
theorem transport_error_no_partial_results_witness :
    jsTrim "101" ≠ "" ∧
    (runEvents ⟨true, [⟨"Z", 3, none, none⟩], (5, 9)⟩
      (handleScrape ⟨"101", "2024-01-01", "2024-01-31", true⟩
        (.httpError "HTTP 500"))).results = [] :=
  ⟨by decide,
   ((transport_error_no_partial_results ⟨"101", "2024-01-01", "2024-01-31", true⟩
      (.httpError "HTTP 500") "HTTP 500" (by decide) (by decide)
      (by decide) rfl rfl).2 _).1⟩

/-- C9: every run that starts from an idle UI state (loading off, progress
`(0,0)`) ends with loading off and progress `(0,0)` again — whether it
failed validation, completed streaming, or was aborted by a transport
error — so no run leaves a stale non-zero progress counter behind. -/
theorem run_end_resets_state (inp : ScrapeInput) (resp : BackendResponse)
    (s₀ : UIState) (hl : s₀.loading = false) (hp : s₀.progress = (0, 0)) :
    (runEvents s₀ (handleScrape inp resp)).loading = false ∧
    (runEvents s₀ (handleScrape inp resp)).progress = (0, 0) := by
  unfold handleScrape
  split_ifs with h1 h2 h3
  · exact ⟨hl, hp⟩
  · exact ⟨hl, hp⟩
  · exact ⟨hl, hp⟩
  · simp [runEvents, applyEv, List.foldl_append]

theorem csvAux_quoted_scan (c : List Char) (hc : ('"' : Char) ∉ c) :
    ∀ (rest field : List Char) (rec : List String),
    csvAux (c ++ '"' :: rest) .quoted field rec =
      csvAux rest .closed (field ++ c) rec := by
  induction c with
  | nil => intro rest field rec; simp [csvAux]
  | cons ch c ih =>
    intro rest field rec
    have hch : ch ≠ '"' := fun h => hc (h ▸ List.mem_cons_self ch c)
    have hc2 : ('"' : Char) ∉ c := fun h => hc (List.mem_cons_of_mem ch h)
    simp only [List.cons_append, csvAux, if_neg hch, List.append_eq]
    rw [ih hc2 rest (field ++ [ch]) rec, List.append_assoc]
    rfl

theorem cellEnc_quoted (c : List Char) (hc : ('"' : Char) ∉ c) :
    CellEnc (cellChars c) c := by
  intro field rec
  have hsplit : ∀ X : List Char, cellChars c ++ X = '"' :: (c ++ '"' :: X) := by
    intro X; simp [cellChars]
  refine ⟨?_, ?_, ?_⟩
  · rw [hsplit]
    show csvAux ('"' :: (c ++ '"' :: [])) .plain field rec = _
    simp only [csvAux, if_pos rfl]
    rw [csvAux_quoted_scan c hc]
    rfl
  · intro r₂
    rw [hsplit]
    show csvAux ('"' :: (c ++ '"' :: ',' :: r₂)) .plain field rec = _
    simp only [csvAux, if_pos rfl]
    rw [csvAux_quoted_scan c hc]
    simp [csvAux]
  · intro r₂
    rw [hsplit]
    show csvAux ('"' :: (c ++ '"' :: '\n' :: r₂)) .plain field rec = _
    simp only [csvAux, if_pos rfl]
    rw [csvAux_quoted_scan c hc]
    simp [csvAux]

theorem csvAux_plain_scan (w : List Char)
    (hw : ∀ ch ∈ w, ch ≠ '"' ∧ ch ≠ ',' ∧ ch ≠ '\n') :
    ∀ (rest field : List Char) (rec : List String),
    csvAux (w ++ rest) .plain field rec = csvAux rest .plain (field ++ w) rec := by
  induction w with
  | nil => intro rest field rec; simp
  | cons ch w ih =>
    intro rest field rec
    obtain ⟨h1, h2, h3⟩ := hw ch (List.mem_cons_self ch w)
    simp only [List.cons_append, csvAux, if_neg h1, if_neg h2, if_neg h3, List.append_eq]
    rw [ih (fun x hx => hw x (List.mem_cons_of_mem ch hx)) rest (field ++ [ch]) rec,
      List.append_assoc]
    rfl

theorem cellEnc_plain (w : List Char)
    (hw : ∀ ch ∈ w, ch ≠ '"' ∧ ch ≠ ',' ∧ ch ≠ '\n') :
    CellEnc w w := by
  intro field rec
  refine ⟨?_, fun r₂ => ?_, fun r₂ => ?_⟩ <;>
    rw [csvAux_plain_scan w hw] <;> simp [csvAux]

theorem rowEnc_of_cells (e c : List Char) (es cs : List (List Char))
    (h : CellEnc e c) (hs : List.Forall₂ CellEnc es cs) :
    RowEnc (joinWith ',' (e :: es)) (rowStrings c cs) := by
  induction hs generalizing e c with
  | nil =>
    refine ⟨fun rec => ?_, fun rec r => ?_⟩
    · have := (h [] rec).1
      simpa [joinWith, rowStrings] using this
    · have := (h [] rec).2.2 r
      simpa [joinWith, rowStrings] using this
  | cons h₂ hs₂ ih =>
    rename_i e₂ c₂ es₂ cs₂
    refine ⟨fun rec => ?_, fun rec r => ?_⟩
    · have hstep := (h [] rec).2.1 (joinWith ',' (e₂ :: es₂))
      have := (ih e₂ c₂ h₂).1 (rec ++ [String.mk ([] ++ c)])
      simp only [joinWith, List.cons_append] at hstep ⊢
      rw [hstep, this]
      simp [rowStrings]
    · have hstep := (h [] rec).2.1 (joinWith ',' (e₂ :: es₂) ++ '\n' :: r)
      have := (ih e₂ c₂ h₂).2 (rec ++ [String.mk ([] ++ c)]) r
      simp only [joinWith, List.cons_append, List.append_assoc] at hstep ⊢
      rw [hstep, this]
      simp [rowStrings]

theorem docRows : ∀ rrows : List (List Char × List String), rrows ≠ [] →
    (∀ p ∈ rrows, RowEnc p.1 p.2) →
    csvAux (joinWith '\n' (rrows.map Prod.fst)) .plain [] [] =
      rrows.map Prod.snd := by
  intro rrows
  induction rrows with
  | nil => intro h; exact absurd rfl h
  | cons p ps ih =>
    intro _ hall
    rcases ps with _ | ⟨q, qs⟩
    · have := (hall p (List.mem_cons_self p [])).1 []
      simpa [joinWith] using this
    · have hp := (hall p (List.mem_cons_self p (q :: qs))).2 []
        (joinWith '\n' ((q :: qs).map Prod.fst))
      have hrest := ih (List.cons_ne_nil q qs)
        (fun x hx => hall x (List.mem_cons_of_mem p hx))
      simp only [List.map_cons] at hrest
      simp only [List.map_cons, joinWith] at hp ⊢
      rw [hp, hrest]
      simp

theorem mk_data (s : String) : String.mk s.data = s := rfl

theorem rowEnc_data (row : List String) (hne : row ≠ [])
    (hq : ∀ cell ∈ row, ('"' : Char) ∉ cell.data) :
    RowEnc (rowChars row) row := by
  obtain ⟨s, ss, rfl⟩ := List.exists_cons_of_ne_nil hne
  have hcells : List.Forall₂ CellEnc (ss.map fun x => cellChars x.data)
      (ss.map fun x => x.data) := by
    rw [List.forall₂_map_left_iff, List.forall₂_map_right_iff, List.forall₂_same]
    intro x hx
    exact cellEnc_quoted x.data (hq x (List.mem_cons_of_mem s hx))
  have h := rowEnc_of_cells (cellChars s.data) s.data _ _
    (cellEnc_quoted s.data (hq s (List.mem_cons_self s ss))) hcells
  have hrow : rowStrings s.data (ss.map fun x => x.data) = s :: ss := by
    simp only [rowStrings, mk_data, List.map_map]
    refine congrArg₂ _ rfl ?_
    rw [show (String.mk ∘ fun x : String => x.data) = id from funext fun x => rfl,
      List.map_id]
  rw [hrow] at h
  simpa [rowChars] using h

theorem headerRowEnc : RowEnc headerChars csvHeaders := by
  have h := rowEnc_of_cells "Unidade".data "Unidade".data
    ["Data".data, "Kg".data, "Total Unidade".data, "Erro".data]
    ["Data".data, "Kg".data, "Total Unidade".data, "Erro".data]
    (cellEnc_plain _ (by decide))
    (List.Forall₂.cons (cellEnc_plain _ (by decide))
      (List.Forall₂.cons (cellEnc_plain _ (by decide))
        (List.Forall₂.cons (cellEnc_plain _ (by decide))
          (List.Forall₂.cons (cellEnc_plain _ (by decide)) List.Forall₂.nil))))
  exact h

theorem unitRows_row_ne_nil (fmt : String → String) (u : UnitResult) :
    ∀ row ∈ unitRows fmt u, row ≠ [] := by
  intro row hrow
  rcases u with ⟨uid, total, _ | rs, err⟩
  · simp [unitRows] at hrow
    simp [hrow]
  · simp only [unitRows] at hrow
    split at hrow
    · obtain ⟨r, _, rfl⟩ := List.mem_map.mp hrow
      simp
    · simp at hrow
      simp [hrow]

theorem exportRows_row_ne_nil (fmt : String → String) (results : List UnitResult) :
    ∀ row ∈ exportRows fmt results, row ≠ [] := by
  intro row hrow
  obtain ⟨u, _, hu⟩ := List.mem_flatMap.mp hrow
  exact unitRows_row_ne_nil fmt u row hu

theorem headerChars_ne_nil : headerChars ≠ [] := by decide

theorem csvChars_ne_nil (fmt : String → String) (results : List UnitResult) :
    csvChars fmt results ≠ [] := by
  unfold csvChars
  rcases (exportRows fmt results).map rowChars with _ | ⟨x, xs⟩
  · simpa [joinWith] using headerChars_ne_nil
  · simp [joinWith, headerChars_ne_nil]

/-- Witness for C9 at a concrete completed run. -/
theorem run_end_resets_state_witness :
    (⟨false, [], (0, 0)⟩ : UIState).loading = false ∧
    (runEvents ⟨false, [], (0, 0)⟩
      (handleScrape ⟨"101", "2024-01-01", "2024-01-31", true⟩
        (.ok [⟨"A", 7, none, none⟩]))).progress = (0, 0) :=
  ⟨rfl, (run_end_resets_state _ _ _ rfl rfl).2⟩

/-- C1 as stated is false: the exporter wraps cells in quotes but never
escapes an embedded quote character, so the error value `x"y` is emitted
as `"x"y"` and a standard delimited-text reader parses it back as `xy`,
not `x"y` — the produced table does not yield back the original field
values. -/
theorem csv_quote_not_escaped_counterexample :
    exportRows id [⟨"A", 0, none, some "x\"y"⟩] = [["A", "", "", "0.00", "x\"y"]] ∧
    parseCSV (csvContent id [⟨"A", 0, none, some "x\"y"⟩]) ≠
      csvHeaders :: exportRows id [⟨"A", 0, none, some "x\"y"⟩] := by
  decide

/-- C1 (amended): every emitted field is wrapped in quotes, which makes
embedded delimiters and newlines safe, but embedded quote characters are
not escaped; consequently, whenever no emitted field contains a double
quote, parsing the produced table with a standard delimited-text reader
yields back exactly the header and the original field values — fields
containing the delimiter or a newline included. -/
theorem csv_roundtrip_without_quotes (fmt : String → String)
    (results : List UnitResult)
    (hq : ∀ row ∈ exportRows fmt results, ∀ cell ∈ row, ('"' : Char) ∉ cell.data) :
    parseCSV (csvContent fmt results) = csvHeaders :: exportRows fmt results := by
  have hall : ∀ p ∈ ((headerChars, csvHeaders) ::
      (exportRows fmt results).map fun row => (rowChars row, row)),
      RowEnc p.1 p.2 := by
    intro p hp
    rcases List.mem_cons.mp hp with rfl | hp
    · exact headerRowEnc
    · obtain ⟨row, hrow, rfl⟩ := List.mem_map.mp hp
      exact rowEnc_data row (exportRows_row_ne_nil fmt results row hrow) (hq row hrow)
  have hdoc := docRows _ (List.cons_ne_nil _ _) hall
  rw [List.map_cons, List.map_cons] at hdoc
  simp only [List.map_map] at hdoc
  have h1 : (exportRows fmt results).map (Prod.fst ∘ fun row => (rowChars row, row)) =
      (exportRows fmt results).map rowChars :=
    List.map_congr_left fun row _ => rfl
  have h2 : (exportRows fmt results).map (Prod.snd ∘ fun row => (rowChars row, row)) =
      exportRows fmt results := by
    rw [show (Prod.snd ∘ fun row : List String => (rowChars row, row)) = id from
      funext fun _ => rfl, List.map_id]
  rw [h1, h2] at hdoc
  unfold parseCSV csvContent
  rw [if_neg (csvChars_ne_nil fmt results)]
  show csvAux (csvChars fmt results) CsvMode.plain [] [] = _
  unfold csvChars
  exact hdoc

/-- Witness for C1 (amended) at a concrete export whose fields contain a
delimiter and a newline but no quote. -/
theorem csv_roundtrip_without_quotes_witness :
    (∀ row ∈ exportRows id [⟨"A", 0, some [⟨"d,1", 5⟩], some "err\nline"⟩],
      ∀ cell ∈ row, ('"' : Char) ∉ cell.data) ∧
    parseCSV (csvContent id [⟨"A", 0, some [⟨"d,1", 5⟩], some "err\nline"⟩]) =
      csvHeaders :: exportRows id [⟨"A", 0, some [⟨"d,1", 5⟩], some "err\nline"⟩] :=
  ⟨by decide, csv_roundtrip_without_quotes id _ (by decide)⟩

end AutoLav
